import Mathlib

/-!
Shallow embedding of the work-pulse Activity Ledger core
(`src/work-pulse-core`): the entity model (`entities/activity.rs`,
`entities/accounting.rs`), the in-memory repositories
(`infra/repositories/in_memory/*`), the CSV import pipeline
(`infra/importers/csv_activities_importer.rs`,
`use_cases/activities_list.rs`) and the report generators
(`use_cases/daily_report.rs`, `use_cases/weekly_report.rs`).

Modelling conventions:
* `chrono::NaiveDate` is embedded as `Int` (proleptic-Gregorian day
  number, as produced by the standard civil-calendar conversion
  `daysFromCivil`); the calendar order and `+ Duration::days(n)`
  become integer order and `+ n`.
* `chrono::NaiveTime` is embedded as `Nat` (seconds of day), and
  `chrono::Duration` as `Int` (signed seconds): `end - start` on two
  `NaiveTime`s is integer subtraction.
* `uuid::Uuid` is embedded as `Nat` (the 128-bit value); its textual
  grammar (simple / hyphenated / braced / urn forms, case-insensitive
  input, lowercase hyphenated output) is embedded explicitly below.
* Fallible Rust functions returning `Result` become `Except`; `&mut
  self` methods become explicit state passing, returning the updated
  state (paired with the `Except` result where the original returns
  `Result`).
* Random identifier generation (`Uuid::new_v4`) becomes an explicit
  fresh-identifier supply passed in by the caller.
-/

deriving instance DecidableEq for Except

namespace WorkPulse

/-! ### Identifiers (`entities/activity.rs`, `entities/accounting.rs`) -/

/-- Embeds `struct ActivityId(pub Uuid)`: the 128-bit UUID value. -/
structure ActivityId where
  val : Nat
deriving DecidableEq, Repr

/-- Embeds `struct AccountingCategoryId(pub Uuid)`. -/
structure AccountingCategoryId where
  val : Nat
deriving DecidableEq, Repr

/-! ### Activity entity (`entities/activity.rs`) -/

/-- Embeds `struct Activity`: date (epoch day), start time and optional
end time (seconds of day), category id, task text. -/
structure Activity where
  id : ActivityId
  date : Int
  start_time : Nat
  end_time : Option Nat
  accounting_category_id : AccountingCategoryId
  task : String
deriving DecidableEq, Repr

/-- Embeds `Activity::with_id`: builds an activity with the given id and
`end_time: None`. -/
def Activity.with_id (id : ActivityId) (date : Int) (start_time : Nat)
    (accounting_category_id : AccountingCategoryId) (task : String) : Activity :=
  { id := id, date := date, start_time := start_time, end_time := none,
    accounting_category_id := accounting_category_id, task := task }

/-- Embeds `Activity::new`: like `with_id` but the (random) fresh id is
supplied explicitly. -/
def Activity.new (freshId : Nat) (date : Int) (start_time : Nat)
    (accounting_category_id : AccountingCategoryId) (task : String) : Activity :=
  Activity.with_id ⟨freshId⟩ date start_time accounting_category_id task

/-- Embeds `Activity::set_end_time`. -/
def Activity.set_end_time (a : Activity) (end_time : Option Nat) : Activity :=
  { a with end_time := end_time }

/-- Embeds `Activity::duration`: `end_time - start_time` when the end
time is set, `Duration::zero()` otherwise. The subtraction is the
signed difference of the two wall times, in seconds. -/
def Activity.duration (a : Activity) : Int :=
  match a.end_time with
  | some end_time => (end_time : Int) - (a.start_time : Int)
  | none => 0

/-! ### Accounting category entity (`entities/accounting.rs`) -/

/-- Embeds `struct AccountingCategory { id, name }`. -/
structure AccountingCategory where
  id : AccountingCategoryId
  name : String
deriving DecidableEq, Repr

/-- Embeds `AccountingCategory::with_id`. -/
def AccountingCategory.with_id (id : AccountingCategoryId) (name : String) :
    AccountingCategory :=
  { id := id, name := name }

/-- Embeds `AccountingCategory::new`: the (random) fresh id is supplied
explicitly. -/
def AccountingCategory.new (freshId : Nat) (name : String) : AccountingCategory :=
  AccountingCategory.with_id ⟨freshId⟩ name

/-! ### In-memory activities repository
(`infra/repositories/in_memory/activities_list.rs`) -/

/-- Embeds `struct ActivityRecord`: the stored row; its `id` field holds
the raw `Uuid` (`activity.id().0`). -/
structure ActivityRecord where
  id : Nat
  date : Int
  start_time : Nat
  end_time : Option Nat
  accounting_category_id : AccountingCategoryId
  task : String
deriving DecidableEq, Repr

/-- Embeds `ActivityRecord::from_entity`: a field-for-field copy. -/
def ActivityRecord.from_entity (a : Activity) : ActivityRecord :=
  { id := a.id.val, date := a.date, start_time := a.start_time,
    end_time := a.end_time, accounting_category_id := a.accounting_category_id,
    task := a.task }

/-- Embeds `ActivityRecord::to_entity`: rebuilds the entity via
`Activity::with_id` followed by `set_end_time`. -/
def ActivityRecord.to_entity (r : ActivityRecord) : Activity :=
  (Activity.with_id ⟨r.id⟩ r.date r.start_time r.accounting_category_id r.task).set_end_time
    r.end_time

/-- Embeds `ActivitiesListRepositoryError` (`adapters/mod.rs`). -/
inductive ActivitiesListRepositoryError where
  | NotFound (id : ActivityId)
deriving DecidableEq, Repr

/-- Embeds `struct InMemoryActivitiesListRepository { activities: Vec<ActivityRecord> }`. -/
structure InMemoryActivitiesListRepository where
  activities : List ActivityRecord
deriving DecidableEq, Repr

namespace InMemoryActivitiesListRepository

/-- Embeds `InMemoryActivitiesListRepository::new`. -/
def new : InMemoryActivitiesListRepository := ⟨[]⟩

/-- Embeds `get_all`: converts every stored record to an entity. -/
def get_all (repo : InMemoryActivitiesListRepository) : List Activity :=
  repo.activities.map ActivityRecord.to_entity

/-- Embeds `get_by_date`: records whose date equals `date`. -/
def get_by_date (repo : InMemoryActivitiesListRepository) (date : Int) : List Activity :=
  (repo.activities.filter (fun r => r.date = date)).map ActivityRecord.to_entity

/-- Embeds `get_by_date_range`: records with `start <= date <= end`
(inclusive on both ends). -/
def get_by_date_range (repo : InMemoryActivitiesListRepository)
    (start finish : Int) : List Activity :=
  (repo.activities.filter (fun r => decide (start ≤ r.date) && decide (r.date ≤ finish))).map
    ActivityRecord.to_entity

/-- Embeds `add`: pushes the converted record; no uniqueness check. -/
def add (repo : InMemoryActivitiesListRepository) (a : Activity) :
    InMemoryActivitiesListRepository :=
  ⟨repo.activities ++ [ActivityRecord.from_entity a]⟩

/-- Embeds `update`: replaces the first record whose id matches, else
`Err(NotFound)`. -/
def update (repo : InMemoryActivitiesListRepository) (a : Activity) :
    Except ActivitiesListRepositoryError Unit × InMemoryActivitiesListRepository :=
  match repo.activities.findIdx? (fun r => r.id = a.id.val) with
  | some i => (Except.ok (), ⟨repo.activities.set i (ActivityRecord.from_entity a)⟩)
  | none => (Except.error (ActivitiesListRepositoryError.NotFound a.id), repo)

/-- Embeds `delete`: removes the record at the first position whose id
matches, else `Err(NotFound(id))`. -/
def delete (repo : InMemoryActivitiesListRepository) (id : ActivityId) :
    Except ActivitiesListRepositoryError Unit × InMemoryActivitiesListRepository :=
  match repo.activities.findIdx? (fun r => r.id = id.val) with
  | some i => (Except.ok (), ⟨repo.activities.eraseIdx i⟩)
  | none => (Except.error (ActivitiesListRepositoryError.NotFound id), repo)

/-- Modelled from the spec: the repository operation
`DeleteByDateRange(start, end) -> count` (spec §4.2) is called by
`ActivitiesList::import` and `ActivitiesList::delete_by_date_range`
(`use_cases/activities_list.rs`) but its in-memory implementation is
absent from `src/`; per the spec it deletes exactly the activities
whose date falls in the inclusive range and reports how many it
deleted (consistently with the use-case test
`activities_list_delete_by_date_range_should_delete_only_in_range`). -/
def delete_by_date_range (repo : InMemoryActivitiesListRepository)
    (start finish : Int) : Nat × InMemoryActivitiesListRepository :=
  let kept := repo.activities.filter (fun r => ¬(start ≤ r.date ∧ r.date ≤ finish))
  (repo.activities.length - kept.length, ⟨kept⟩)

/-- Modelled from the spec: the repository operation `DeleteAll()`
(spec §4.2), called by `ActivitiesList::import` under
`ReplaceMode::All` but absent from the in-memory implementation in
`src/`; it deletes every stored activity. -/
def delete_all (_repo : InMemoryActivitiesListRepository) :
    InMemoryActivitiesListRepository := ⟨[]⟩

end InMemoryActivitiesListRepository

/-! ### In-memory accounting categories repository
(`infra/repositories/in_memory/accounting_categories_list.rs`) -/

/-- Embeds `struct AccountingCategoryRecord { id: Uuid, name: String }`. -/
structure AccountingCategoryRecord where
  id : Nat
  name : String
deriving DecidableEq, Repr

/-- Embeds `AccountingCategoryRecord::from_entity`. -/
def AccountingCategoryRecord.from_entity (c : AccountingCategory) :
    AccountingCategoryRecord :=
  { id := c.id.val, name := c.name }

/-- Embeds `AccountingCategoryRecord::to_entity`. -/
def AccountingCategoryRecord.to_entity (r : AccountingCategoryRecord) :
    AccountingCategory :=
  AccountingCategory.with_id ⟨r.id⟩ r.name

/-- Embeds `struct InMemoryAccountingCategoriesListRepository`. -/
structure InMemoryAccountingCategoriesListRepository where
  categories : List AccountingCategoryRecord
deriving DecidableEq, Repr

namespace InMemoryAccountingCategoriesListRepository

/-- Embeds `InMemoryAccountingCategoriesListRepository::new`. -/
def new : InMemoryAccountingCategoriesListRepository := ⟨[]⟩

/-- Embeds `get_all`. -/
def get_all (repo : InMemoryAccountingCategoriesListRepository) :
    List AccountingCategory :=
  repo.categories.map AccountingCategoryRecord.to_entity

/-- Embeds `add`: pushes the converted record; no uniqueness check. -/
def add (repo : InMemoryAccountingCategoriesListRepository)
    (c : AccountingCategory) : InMemoryAccountingCategoriesListRepository :=
  ⟨repo.categories ++ [AccountingCategoryRecord.from_entity c]⟩

/-- Embeds `get_or_create_by_name`: returns the first stored category
whose name matches exactly, else creates one via
`AccountingCategory::new` (its random fresh id supplied here as
`freshId`), adds it and returns it. The in-memory implementation
always returns `Ok`, so the `Ok` payload is modelled directly. -/
def get_or_create_by_name (repo : InMemoryAccountingCategoriesListRepository)
    (freshId : Nat) (name : String) :
    AccountingCategory × InMemoryAccountingCategoriesListRepository :=
  match repo.categories.find? (fun r => r.name = name) with
  | some r => (r.to_entity, repo)
  | none =>
    let new_category := AccountingCategory.new freshId name
    (new_category, repo.add new_category)

end InMemoryAccountingCategoriesListRepository

/-! ### Report aggregation (`use_cases/daily_report.rs`,
`use_cases/weekly_report.rs`) -/

/-- Embeds `struct DailyReport { date, activities, total_duration }`. -/
structure DailyReport where
  date : Int
  activities : List Activity
  total_duration : Int
deriving DecidableEq, Repr

/-- Embeds `DailyReport::calculate_activity_duration` — the same
computation as `Activity::duration`. -/
def DailyReport.calculate_activity_duration (a : Activity) : Int :=
  match a.end_time with
  | some end_time => (end_time : Int) - (a.start_time : Int)
  | none => 0

/-- Embeds `DailyReport::new`: fetches `get_by_date(date)` and sums the
activity durations. -/
def DailyReport.new (date : Int) (repository : InMemoryActivitiesListRepository) :
    DailyReport :=
  let activities := repository.get_by_date date
  { date := date,
    activities := activities,
    total_duration := (activities.map DailyReport.calculate_activity_duration).sum }

/-- Embeds the `*map.entry(category_id).or_insert(Duration::zero()) += duration`
step of `WeeklyReport::new` on an association list: add `d` to the entry
of `k`, inserting `(k, d)` when absent. (The source uses a `HashMap`,
whose iteration order is unspecified; the association list fixes
first-insertion order, which no claim observes beyond sums.) -/
def addToCategory (m : List (AccountingCategoryId × Int))
    (k : AccountingCategoryId) (d : Int) : List (AccountingCategoryId × Int) :=
  match m with
  | [] => [(k, d)]
  | (k', v) :: rest =>
    if k' = k then (k', v + d) :: rest else (k', v) :: addToCategory rest k d

/-- Embeds `struct WeeklyReport`. -/
structure WeeklyReport where
  week_start : Int
  week_end : Int
  activities : List Activity
  total_duration : Int
  duration_per_category : List (AccountingCategoryId × Int)
  daily_durations_per_category : List (Int × List (AccountingCategoryId × Int))
deriving DecidableEq, Repr

/-- Embeds `WeeklyReport::calculate_daily_durations_per_category`: for
each `day_offset` in `0..7`, group the activities dated
`week_start + day_offset` by category. -/
def WeeklyReport.calculate_daily_durations_per_category
    (activities : List Activity) (week_start : Int) :
    List (Int × List (AccountingCategoryId × Int)) :=
  (List.range 7).map (fun day_offset =>
    let current_date := week_start + (day_offset : Int)
    let daily := (activities.filter (fun a => a.date = current_date)).foldl
      (fun m a => addToCategory m a.accounting_category_id a.duration) []
    (current_date, daily))

/-- Embeds `WeeklyReport::new`: `week_end = week_start + Duration::days(7)`,
activities fetched with `get_by_date_range(week_start, week_end)`
(inclusive on both ends, hence an 8-day window), total and per-category
durations summed over that window. -/
def WeeklyReport.new (week_start : Int)
    (repository : InMemoryActivitiesListRepository) : WeeklyReport :=
  let week_end := week_start + 7
  let activities := repository.get_by_date_range week_start week_end
  let total_duration := (activities.map Activity.duration).sum
  let duration_per_category := activities.foldl
    (fun m a => addToCategory m a.accounting_category_id a.duration) []
  { week_start := week_start,
    week_end := week_end,
    activities := activities,
    total_duration := total_duration,
    duration_per_category := duration_per_category,
    daily_durations_per_category :=
      WeeklyReport.calculate_daily_durations_per_category activities week_start }

/-! ### Activities-list use case (`use_cases/activities_list.rs`) -/

/-- Embeds `enum ReplaceMode`. -/
inductive ReplaceMode where
  | None
  | All
  | ImportDateRange
deriving DecidableEq, Repr

/-- Embeds `enum ActivitiesImporterError`. The declaration in
`adapters/mod.rs` under `src/` lists only `ParseError`;
`ActivitiesList::import` also constructs `NoActivitiesToImport` and
`RepositoryError`, whose variants are modelled from the spec (§7). -/
inductive ActivitiesImporterError where
  | ParseError
  | NoActivitiesToImport
  | RepositoryError (message : String)
deriving DecidableEq, Repr

/-- Embeds `enum ActivitiesListError`. -/
inductive ActivitiesListError where
  | NotFound (id : ActivityId)
  | TechnicalError (message : String)
deriving DecidableEq, Repr

/-- Embeds `Iterator::min` over the dates of a batch. -/
def listMin? : List Int → Option Int
  | [] => none
  | x :: xs =>
    match listMin? xs with
    | none => some x
    | some m => some (min x m)

/-- Embeds `Iterator::max` over the dates of a batch. -/
def listMax? : List Int → Option Int
  | [] => none
  | x :: xs =>
    match listMax? xs with
    | none => some x
    | some m => some (max x m)

namespace ActivitiesList

/-- Embeds `ActivitiesList::delete`: delegates to the repository and
maps any error to `ActivitiesListError::NotFound(activity_id)`. -/
def delete (activity_id : ActivityId) (repo : InMemoryActivitiesListRepository) :
    Except ActivitiesListError Unit × InMemoryActivitiesListRepository :=
  match repo.delete activity_id with
  | (Except.ok (), repo') => (Except.ok (), repo')
  | (Except.error _, repo') =>
    (Except.error (ActivitiesListError.NotFound activity_id), repo')

/-- Embeds `ActivitiesList::import` after the importer has run: the
importer's result is the `importer.import(reader, year)` value
(the function is generic over importers, so the result is taken as a
parameter; `?` propagates an importer error before any repository
mutation). Under `ReplaceMode::All` every existing activity is
deleted, under `ReplaceMode::ImportDateRange` the min and max dates of
the batch are computed (an empty batch yields
`NoActivitiesToImport`) and the existing activities in `[min, max]`
are deleted; afterwards the batch is added activity by activity.
(Named `importActivities` because `import` is reserved in Lean.) -/
def importActivities (importResult : Except ActivitiesImporterError (List Activity))
    (replace_existing : ReplaceMode) (repo : InMemoryActivitiesListRepository) :
    Except ActivitiesImporterError Unit × InMemoryActivitiesListRepository :=
  match importResult with
  | Except.error e => (Except.error e, repo)
  | Except.ok activities =>
    match replace_existing with
    | ReplaceMode.None =>
      (Except.ok (), activities.foldl (fun r a => r.add a) repo)
    | ReplaceMode.All =>
      let repo' := repo.delete_all
      (Except.ok (), activities.foldl (fun r a => r.add a) repo')
    | ReplaceMode.ImportDateRange =>
      match listMin? (activities.map Activity.date) with
      | none => (Except.error ActivitiesImporterError.NoActivitiesToImport, repo)
      | some min_date =>
        match listMax? (activities.map Activity.date) with
        | none => (Except.error ActivitiesImporterError.NoActivitiesToImport, repo)
        | some max_date =>
          let repo' := (repo.delete_by_date_range min_date max_date).2
          (Except.ok (), activities.foldl (fun r a => r.add a) repo')

end ActivitiesList

/-! ### CSV importer (`infra/importers/csv_activities_importer.rs`)

The `csv` crate is external; a deserialized row stream is embedded as a
`List (Option ActivityTableRecord)`, one element per data row, `none`
standing for a row the crate fails to deserialize. -/

/-- Embeds `struct ActivityTableRecord`: the named CSV columns
`CW, Date, Check In, Check Out, PAM Category, Topic, Comment`. -/
structure ActivityTableRecord where
  cw : Nat
  date : String
  check_in : String
  check_out : String
  pam_category : String
  task : String
  comment : String
deriving DecidableEq, Repr

/-- Decides whether a character is an ASCII decimal digit. -/
def isDigitChar (c : Char) : Bool := 48 ≤ c.toNat && c.toNat ≤ 57

/-- Numeric value of an ASCII decimal digit. -/
def digitVal (c : Char) : Nat := c.toNat - 48

/-- Embeds chrono's numeric-field parsing for a width-2 field (`%d`,
`%m`, `%H`, `%M`, `%S`): greedily reads one or two digits. -/
def read2 : List Char → Option (Nat × List Char)
  | [] => none
  | c1 :: rest =>
    if isDigitChar c1 then
      match rest with
      | c2 :: rest2 =>
        if isDigitChar c2 then some (digitVal c1 * 10 + digitVal c2, rest2)
        else some (digitVal c1, rest)
      | [] => some (digitVal c1, [])
    else none

/-- Embeds chrono's year-field parsing (`%Y`): greedily reads at least
one digit. (Signs and width caps beyond the inputs at hand are not
modelled.) -/
def readYear (cs : List Char) : Option (Nat × List Char) :=
  let digits := cs.takeWhile isDigitChar
  if digits.isEmpty then none
  else some (digits.foldl (fun acc c => acc * 10 + digitVal c) 0, cs.dropWhile isDigitChar)

/-- Embeds chrono's proleptic-Gregorian leap-year rule. -/
def isLeapYear (y : Nat) : Bool := y % 4 = 0 && (y % 100 ≠ 0 || y % 400 = 0)

/-- Days in a month of the proleptic Gregorian calendar. -/
def daysInMonth (y m : Nat) : Nat :=
  if m = 2 then (if isLeapYear y then 29 else 28)
  else if m = 4 || m = 6 || m = 9 || m = 11 then 30
  else 31

/-- Embeds the calendar-validity check `NaiveDate::from_ymd_opt`
performs after field parsing. -/
def validYMD (y m d : Nat) : Bool :=
  1 ≤ m && m ≤ 12 && 1 ≤ d && d ≤ daysInMonth y m

/-- Embeds the civil-calendar day count underlying `chrono::NaiveDate`:
the number of days since 1970-01-01 of year/month/day, so that calendar
order becomes integer order and adding days becomes integer addition. -/
def daysFromCivil (y : Int) (m d : Nat) : Int :=
  let y' : Int := if m ≤ 2 then y - 1 else y
  let era : Int := (if 0 ≤ y' then y' else y' - 399) / 400
  let yoe : Int := y' - era * 400
  let mp : Int := ((m : Int) + 9) % 12
  let doy : Int := (153 * mp + 2) / 5 + (d : Int) - 1
  let doe : Int := yoe * 365 + yoe / 4 - yoe / 100 + doy
  era * 146097 + doe - 719468

/-- Embeds `NaiveDate::parse_from_str(&date, "%d.%m.%Y")`: day field,
literal dot, month field, literal dot, year field, end of input, then
the calendar-validity check. Returns the parsed year/month/day. -/
def parseDMY (cs : List Char) : Option (Nat × Nat × Nat) :=
  match read2 cs with
  | none => none
  | some (d, cs1) =>
    match cs1 with
    | '.' :: cs2 =>
      match read2 cs2 with
      | none => none
      | some (m, cs3) =>
        match cs3 with
        | '.' :: cs4 =>
          match readYear cs4 with
          | none => none
          | some (y, cs5) =>
            if cs5.isEmpty && validYMD y m d then some (y, m, d) else none
        | _ => none
    | _ => none

/-- Embeds `ActivityTableRecord::convert_date_format`: appends the year
to the `dd.mm.` cell and parses the result as `%d.%m.%Y`, any failure
becoming `ParseError`. The source then renders the date as
`%Y-%m-%d` and the importer reparses that rendering — an identity on
valid dates — so the parsed year/month/day is returned directly. -/
def convert_date_format (date year : String) :
    Except ActivitiesImporterError (Nat × Nat × Nat) :=
  match parseDMY (date ++ year).data with
  | some ymd => Except.ok ymd
  | none => Except.error ActivitiesImporterError.ParseError

/-- Embeds `str::parse::<NaiveTime>()` on the `Check In` / `Check Out`
cells: `HH:MM` or `HH:MM:SS` with in-range fields, as seconds of day. -/
def parseTime (s : String) : Option Nat :=
  match read2 s.data with
  | none => none
  | some (h, cs1) =>
    match cs1 with
    | ':' :: cs2 =>
      match read2 cs2 with
      | none => none
      | some (m, cs3) =>
        match cs3 with
        | [] => if h < 24 && m < 60 then some (h * 3600 + m * 60) else none
        | ':' :: cs4 =>
          match read2 cs4 with
          | none => none
          | some (sec, cs5) =>
            if cs5.isEmpty && h < 24 && m < 60 && sec < 60 then
              some (h * 3600 + m * 60 + sec)
            else none
        | _ => none
    | _ => none

namespace CsvActivitiesImporter

/-- Embeds the first loop of `CsvActivitiesImporter::import`: collect
the deserialized rows, aborting with `ParseError` at the first row the
`csv` crate fails to deserialize. -/
def deserializeRows : List (Option ActivityTableRecord) →
    Except ActivitiesImporterError (List ActivityTableRecord)
  | [] => Except.ok []
  | none :: _ => Except.error ActivitiesImporterError.ParseError
  | some record :: rest =>
    match deserializeRows rest with
    | Except.ok records => Except.ok (record :: records)
    | Except.error e => Except.error e

/-- Embeds the second loop of `CsvActivitiesImporter::import`, row by
row: convert the date cell with the year, resolve the category through
`get_or_create_by_name` (mutating the shared category repository, which
persists even when a later row fails), parse check-in, build the
activity with a fresh id, parse check-out and set it as the end time.
`actIds`/`catIds` supply the random ids (indexed by rows processed and
categories created so far); `created` counts category creations. -/
def importRows (year : Nat) (actIds catIds : Nat → Nat) :
    List ActivityTableRecord → InMemoryAccountingCategoriesListRepository →
    Nat → Nat → List Activity →
    Except ActivitiesImporterError (List Activity) ×
      InMemoryAccountingCategoriesListRepository
  | [], catRepo, _, _, acc => (Except.ok acc, catRepo)
  | record :: rest, catRepo, rowIdx, created, acc =>
    match convert_date_format record.date (toString year) with
    | Except.error e => (Except.error e, catRepo)
    | Except.ok (y, m, d) =>
      match catRepo.get_or_create_by_name (catIds created) record.pam_category with
      | (accounting_category, catRepo') =>
        match parseTime record.check_in with
        | none => (Except.error ActivitiesImporterError.ParseError, catRepo')
        | some check_in =>
          match parseTime record.check_out with
          | none => (Except.error ActivitiesImporterError.ParseError, catRepo')
          | some check_out =>
            importRows year actIds catIds rest catRepo' (rowIdx + 1)
              (if catRepo'.categories.length = catRepo.categories.length then created
               else created + 1)
              (acc ++ [(Activity.new (actIds rowIdx) (daysFromCivil (y : Int) m d)
                check_in accounting_category.id record.task).set_end_time
                  (some check_out)])

/-- Embeds `CsvActivitiesImporter::import`: deserialize every row, then
process the records; the category repository is threaded through and
returned alongside the result. -/
def runImport (rows : List (Option ActivityTableRecord)) (year : Nat)
    (actIds catIds : Nat → Nat)
    (catRepo : InMemoryAccountingCategoriesListRepository) :
    Except ActivitiesImporterError (List Activity) ×
      InMemoryAccountingCategoriesListRepository :=
  match deserializeRows rows with
  | Except.error e => (Except.error e, catRepo)
  | Except.ok records => importRows year actIds catIds records catRepo 0 0 []

end CsvActivitiesImporter

/-! ### UUID text (`uuid` crate, used by `ActivityId::parse_str` and
`Display for ActivityId` in `entities/activity.rs`)

`Uuid::parse_str` accepts, by input length, the simple (32 hex digits),
hyphenated (8-4-4-4-12), braced and URN forms, with case-insensitive
hex digits; `Display` renders the lowercase hyphenated form. -/

/-- Lowercase hexadecimal digit for a nibble. -/
def hexChar (n : Nat) : Char :=
  if n < 10 then Char.ofNat (48 + n) else Char.ofNat (87 + n)

/-- Value of a hexadecimal digit, accepting both cases. -/
def hexVal (c : Char) : Option Nat :=
  let n := c.toNat
  if 48 ≤ n && n ≤ 57 then some (n - 48)
  else if 97 ≤ n && n ≤ 102 then some (n - 87)
  else if 65 ≤ n && n ≤ 70 then some (n - 55)
  else none

/-- Reads exactly `n` hexadecimal digits, folding them big-endian onto
the accumulator, and returns the remaining input. -/
def readHex : Nat → List Char → Nat → Option (Nat × List Char)
  | 0, cs, acc => some (acc, cs)
  | _ + 1, [], _ => none
  | n + 1, c :: cs, acc =>
    match hexVal c with
    | some v => readHex n cs (acc * 16 + v)
    | none => none

/-- Big-endian nibble expansion of a number to a fixed width. -/
def toNibbles : Nat → Nat → List Nat
  | 0, _ => []
  | k + 1, u => toNibbles k (u / 16) ++ [u % 16]

/-- Consumes the group-separating hyphen the hyphenated form requires. -/
def expectHyphen : List Char → Option (List Char)
  | [] => none
  | c :: cs => if c = '-' then some cs else none

/-- Parses the hyphenated UUID form: five hex-digit groups of lengths
8, 4, 4, 4 and 12 separated by hyphens, consuming the whole input. -/
def parseHyphenated (cs : List Char) : Option Nat :=
  match readHex 8 cs 0 with
  | none => none
  | some (a, cs1) =>
    match expectHyphen cs1 with
    | none => none
    | some cs2 =>
      match readHex 4 cs2 a with
      | none => none
      | some (b, cs3) =>
        match expectHyphen cs3 with
        | none => none
        | some cs4 =>
          match readHex 4 cs4 b with
          | none => none
          | some (c, cs5) =>
            match expectHyphen cs5 with
            | none => none
            | some cs6 =>
              match readHex 4 cs6 c with
              | none => none
              | some (d, cs7) =>
                match expectHyphen cs7 with
                | none => none
                | some cs8 =>
                  match readHex 12 cs8 d with
                  | some (e, []) => some e
                  | _ => none

/-- Parses the simple UUID form: 32 hex digits, no separators. -/
def parseSimple (cs : List Char) : Option Nat :=
  match readHex 32 cs 0 with
  | some (u, []) => some u
  | _ => none

/-- Parses the Microsoft braced form: a hyphenated UUID in `{ }`. -/
def parseBraced (cs : List Char) : Option Nat :=
  match cs with
  | '{' :: rest =>
    if rest.getLast? = some (Char.ofNat 125) then parseHyphenated rest.dropLast
    else none
  | _ => none

/-- Parses the URN form: `urn:uuid:` followed by the hyphenated form. -/
def parseUrn (cs : List Char) : Option Nat :=
  if cs.take 9 = ("urn:uuid:").data then parseHyphenated (cs.drop 9) else none

/-- Embeds `Uuid::parse_str`: dispatches on the input length to the
simple, hyphenated, braced or URN parser. -/
def uuidParse (s : String) : Option Nat :=
  let cs := s.data
  if cs.length = 32 then parseSimple cs
  else if cs.length = 36 then parseHyphenated cs
  else if cs.length = 38 then parseBraced cs
  else if cs.length = 45 then parseUrn cs
  else none

/-- Renders five nibble groups as the hyphenated character sequence. -/
def renderHyphenated (g1 g2 g3 g4 g5 : List Nat) : List Char :=
  g1.map hexChar ++ '-' :: (g2.map hexChar ++ '-' :: (g3.map hexChar ++ '-' ::
    (g4.map hexChar ++ '-' :: g5.map hexChar)))

/-- Embeds `Display for Uuid`: the canonical lowercase hyphenated
rendering of the 128-bit value. -/
def uuidToString (u : Nat) : String :=
  let ds := toNibbles 32 u
  String.mk (renderHyphenated (ds.take 8) ((ds.drop 8).take 4)
    ((ds.drop 12).take 4) ((ds.drop 16).take 4) (ds.drop 20))

/-- Embeds `ActivityIdError` (`entities/activity.rs`). -/
inductive ActivityIdError where
  | NotAValidId (s : String)
deriving DecidableEq, Repr

/-- Embeds `ActivityId::parse_str`: `Uuid::parse_str` with failures
mapped to `NotAValidId(s)`. -/
def ActivityId.parse_str (s : String) : Except ActivityIdError ActivityId :=
  match uuidParse s with
  | some u => Except.ok ⟨u⟩
  | none => Except.error (ActivityIdError.NotAValidId s)

/-- Embeds `Display for ActivityId`: formats the wrapped UUID. -/
def ActivityId.render (id : ActivityId) : String := uuidToString id.val

/-! ### Helper lemmas -/

/-- Folding `add` over a batch appends the batch's records, in order,
after the existing ones. -/
theorem foldl_add_activities (batch : List Activity) :
    ∀ repo : InMemoryActivitiesListRepository,
      batch.foldl (fun r a => r.add a) repo
        = ⟨repo.activities ++ batch.map ActivityRecord.from_entity⟩ := by
  induction batch with
  | nil => intro repo; simp
  | cons a t ih =>
    intro repo
    simp only [List.foldl_cons, ih, List.map_cons]
    simp [InMemoryActivitiesListRepository.add]

/-! ### Claim C5 -/

/-- C5: importing a successfully parsed but empty batch under
`ReplaceMode::ImportDateRange` fails with `NoActivitiesToImport` and
leaves the ledger unchanged. -/
theorem import_empty_batch_date_range (repo : InMemoryActivitiesListRepository) :
    ActivitiesList.importActivities (Except.ok []) ReplaceMode.ImportDateRange repo
      = (Except.error ActivitiesImporterError.NoActivitiesToImport, repo) := rfl

/-! ### Claim C8 -/

/-- C8: `Activity::duration` returns zero when `end_time` is absent and
`end_time - start_time` (a signed difference, with no `end_time >=
start_time` precondition) when it is present. -/
theorem activity_duration_spec (a : Activity) :
    (a.end_time = none → a.duration = 0) ∧
    (∀ e, a.end_time = some e → a.duration = (e : Int) - (a.start_time : Int)) := by
  constructor
  · intro h; simp [Activity.duration, h]
  · intro e h; simp [Activity.duration, h]

/-- Witness for C8: a concrete activity whose end time lies before its
start time still yields the (negative) difference, showing the absence
of any precondition. -/
theorem activity_duration_spec_witness :
    ((Activity.with_id ⟨1⟩ 0 36000 ⟨2⟩ "t").set_end_time (some 32400)).duration
      = (32400 : Int) - (36000 : Int) :=
  (activity_duration_spec ((Activity.with_id ⟨1⟩ 0 36000 ⟨2⟩ "t").set_end_time
    (some 32400))).2 32400 rfl

/-! ### Claim C9 -/

/-- A repository holding two records that share the identifier `1`: a
state the repository contract admits, since `add` appends without any
uniqueness check. -/
def dupIdRepo : InMemoryActivitiesListRepository :=
  ⟨[{ id := 1, date := 0, start_time := 9, end_time := none,
      accounting_category_id := ⟨5⟩, task := "first" },
    { id := 1, date := 0, start_time := 10, end_time := none,
      accounting_category_id := ⟨5⟩, task := "second" }]⟩

/-- Counterexample to C9 as stated: on a repository holding two records
with identifier `1`, `delete(1)` succeeds yet `get_all()` still
contains an activity with identifier `1`, because `delete` removes only
the first matching record. -/
theorem delete_counterexample :
    (dupIdRepo.delete ⟨1⟩).1 = Except.ok () ∧
    ∃ a ∈ (dupIdRepo.delete ⟨1⟩).2.get_all, a.id = ⟨1⟩ := by decide

/-- List-level fact: when the images under `f` are pairwise distinct,
removing the first element mapped to `v` leaves no element mapped to
`v`. -/
theorem eraseP_no_match {α β : Type} [DecidableEq β] (f : α → β) (v : β) :
    ∀ l : List α, (l.map f).Nodup →
      ∀ r ∈ l.eraseP (fun r => decide (f r = v)), f r ≠ v := by
  intro l
  induction l with
  | nil => simp
  | cons a t ih =>
    intro hnodup r hr
    simp only [List.map_cons, List.nodup_cons] at hnodup
    by_cases ha : f a = v
    · rw [List.eraseP_cons_of_pos (by simpa using ha)] at hr
      intro hrv
      apply hnodup.1
      have hmem : f r ∈ List.map f t := List.mem_map_of_mem f hr
      rwa [hrv, ← ha] at hmem
    · rw [List.eraseP_cons_of_neg (by simpa using ha)] at hr
      rcases List.mem_cons.mp hr with hreq | hrt
      · simpa [hreq] using ha
      · exact ih hnodup.2 r hrt

/-- Removing the element at the index found by `findIdx?` is removing
the first element satisfying the predicate. -/
theorem eraseIdx_findIdx {α : Type} (p : α → Bool) :
    ∀ (l : List α) (i : Nat), l.findIdx? p = some i → l.eraseIdx i = l.eraseP p := by
  intro l
  induction l with
  | nil => simp
  | cons a t ih =>
    intro i hi
    by_cases hpa : p a
    · rw [List.findIdx?_cons, if_pos hpa] at hi
      injection hi with h
      subst h
      simp [List.eraseP_cons_of_pos hpa]
    · rw [List.findIdx?_cons, if_neg (by simpa using hpa), List.findIdx?_succ] at hi
      cases hfi : List.findIdx? p t with
      | none => rw [hfi] at hi; simp at hi
      | some j =>
        rw [hfi] at hi
        simp only [Option.map_some'] at hi
        injection hi with h
        subst h
        rw [List.eraseIdx_cons_succ, List.eraseP_cons_of_neg (by simpa using hpa),
          ih j hfi]

/-- C9 (amended): deleting an absent identifier fails with
`NotFound(id)` and leaves the repository unchanged; deleting a present
identifier succeeds and removes the first stored record carrying it, so
that whenever the stored identifiers are pairwise distinct — the only
states the original claim can speak about — `get_all()` afterwards
contains no activity with that identifier. -/
theorem delete_spec (repo : InMemoryActivitiesListRepository) (id : ActivityId) :
    ((∀ r ∈ repo.activities, r.id ≠ id.val) →
      repo.delete id = (Except.error (ActivitiesListRepositoryError.NotFound id), repo)) ∧
    ((∃ r ∈ repo.activities, r.id = id.val) →
      (repo.delete id).1 = Except.ok () ∧
      (repo.delete id).2.activities
        = repo.activities.eraseP (fun r => decide (r.id = id.val)) ∧
      ((repo.activities.map ActivityRecord.id).Nodup →
        ∀ a ∈ (repo.delete id).2.get_all, a.id ≠ id)) := by
  constructor
  · intro habsent
    have hnone : repo.activities.findIdx? (fun r => decide (r.id = id.val)) = none := by
      rw [List.findIdx?_eq_none_iff]
      intro r hr
      simpa using habsent r hr
    simp [InMemoryActivitiesListRepository.delete, hnone]
  · intro hpresent
    have hsome : ∃ i, repo.activities.findIdx? (fun r => decide (r.id = id.val)) = some i := by
      rcases hpresent with ⟨r, hr, hrid⟩
      rcases Option.eq_none_or_eq_some
          (repo.activities.findIdx? (fun r => decide (r.id = id.val))) with hnone | hsome
      · rw [List.findIdx?_eq_none_iff] at hnone
        exact absurd hrid (by simpa using hnone r hr)
      · exact hsome.imp fun _ h => h
    rcases hsome with ⟨i, hi⟩
    have herase := eraseIdx_findIdx (fun r => decide (r.id = id.val)) repo.activities i hi
    refine ⟨by simp [InMemoryActivitiesListRepository.delete, hi], ?_, ?_⟩
    · simp [InMemoryActivitiesListRepository.delete, hi, herase]
    · intro hnodup a ha
      simp only [InMemoryActivitiesListRepository.delete, hi,
        InMemoryActivitiesListRepository.get_all, List.mem_map] at ha
      rcases ha with ⟨r, hr, rfl⟩
      rw [herase] at hr
      have := eraseP_no_match ActivityRecord.id id.val repo.activities hnodup r hr
      intro hcontra
      exact this (by simp [ActivityRecord.to_entity, Activity.set_end_time,
        Activity.with_id] at hcontra ⊢; exact congrArg ActivityId.val hcontra)

/-- A repository holding a single record with identifier `1`, used to
exercise both branches of the delete specification. -/
def singleIdRepo : InMemoryActivitiesListRepository :=
  ⟨[{ id := 1, date := 0, start_time := 9, end_time := none,
      accounting_category_id := ⟨5⟩, task := "a" }]⟩

/-- Witness for C9 (amended): a concrete run of both branches — an
absent identifier is rejected with `NotFound`, and on a
distinct-identifier repository the present identifier disappears from
`get_all()` after deletion. -/
theorem delete_spec_witness :
    singleIdRepo.delete ⟨2⟩
      = (Except.error (ActivitiesListRepositoryError.NotFound ⟨2⟩), singleIdRepo) ∧
    ∀ a ∈ (singleIdRepo.delete ⟨1⟩).2.get_all, a.id ≠ ⟨1⟩ := by
  constructor
  · exact (delete_spec singleIdRepo ⟨2⟩).1 (by decide)
  · exact ((delete_spec singleIdRepo ⟨1⟩).2 (by decide)).2.2 (by decide)

/-! ### Claim C1 -/

/-- A category repository already holding two categories named `X`: a
state the repository contract admits, since `add` appends without any
uniqueness check. -/
def dupNameCatRepo : InMemoryAccountingCategoriesListRepository :=
  ⟨[{ id := 0, name := "X" }, { id := 1, name := "X" }]⟩

/-- Counterexample to C1 as stated: on a repository already holding two
categories named `X`, two `get_or_create_by_name("X")` calls return the
same identifier but afterwards the repository holds two categories
named `X`, not exactly one. -/
theorem get_or_create_counterexample :
    ((dupNameCatRepo.get_or_create_by_name 7 "X").1.id
      = (((dupNameCatRepo.get_or_create_by_name 7 "X").2.get_or_create_by_name 8
          "X").1.id)) ∧
    ((((dupNameCatRepo.get_or_create_by_name 7 "X").2.get_or_create_by_name 8
        "X").2.categories.countP (fun r => decide (r.name = "X"))) = 2) := by decide

/-- C1 (amended): two successive `get_or_create_by_name(X)` calls return
the same category identifier, the second call never mutates the
repository, and together they create at most one category: afterwards
the number of categories named `X` is one when none existed before and
is unchanged otherwise (so it is exactly one whenever the repository
started, as in the original claim's intent, without duplicate names). -/
theorem get_or_create_by_name_spec
    (repo : InMemoryAccountingCategoriesListRepository) (name : String)
    (f1 f2 : Nat) :
    ((repo.get_or_create_by_name f1 name).1.id
      = (((repo.get_or_create_by_name f1 name).2.get_or_create_by_name f2
          name).1.id)) ∧
    (((repo.get_or_create_by_name f1 name).2.get_or_create_by_name f2 name).2
      = (repo.get_or_create_by_name f1 name).2) ∧
    ((((repo.get_or_create_by_name f1 name).2.get_or_create_by_name f2
        name).2.categories.countP (fun r => decide (r.name = name)))
      = (if repo.categories.countP (fun r => decide (r.name = name)) = 0 then 1
         else repo.categories.countP (fun r => decide (r.name = name)))) := by
  cases hfind : repo.categories.find? (fun r => decide (r.name = name)) with
  | some r =>
    have hcount : repo.categories.countP (fun r => decide (r.name = name)) ≠ 0 := by
      have hmem : r ∈ repo.categories := List.mem_of_find?_eq_some hfind
      have hp := List.find?_some hfind
      have hpos : 0 < repo.categories.countP (fun r => decide (r.name = name)) :=
        List.countP_pos_iff.mpr ⟨r, hmem, hp⟩
      omega
    simp [InMemoryAccountingCategoriesListRepository.get_or_create_by_name, hfind,
      hcount]
  | none =>
    have hzero : repo.categories.countP (fun r => decide (r.name = name)) = 0 :=
      List.countP_eq_zero.mpr (by simpa using List.find?_eq_none.mp hfind)
    have hfind2 :
        ((repo.categories ++
            [AccountingCategoryRecord.from_entity (AccountingCategory.new f1 name)]).find?
          (fun r => decide (r.name = name)))
          = some (AccountingCategoryRecord.from_entity (AccountingCategory.new f1 name)) := by
      rw [List.find?_append, hfind]
      simp [AccountingCategoryRecord.from_entity, AccountingCategory.new,
        AccountingCategory.with_id]
    simp [InMemoryAccountingCategoriesListRepository.get_or_create_by_name, hfind,
      InMemoryAccountingCategoriesListRepository.add, hfind2, hzero,
      AccountingCategoryRecord.to_entity, AccountingCategoryRecord.from_entity,
      AccountingCategory.new, AccountingCategory.with_id]

/-! ### Claim C3 -/

/-- C3: a non-empty, successfully parsed batch imported under
`ReplaceMode::ImportDateRange` leaves exactly the pre-existing records
dated outside the batch's `[min, max]` span (in their original order,
showing deletion happens before insertion) followed by the batch's
records; in particular every pre-existing record dated outside the span
is retained. -/
theorem import_date_range_spec (repo : InMemoryActivitiesListRepository)
    (batch : List Activity) (mn mx : Int)
    (hmin : listMin? (batch.map Activity.date) = some mn)
    (hmax : listMax? (batch.map Activity.date) = some mx) :
    ActivitiesList.importActivities (Except.ok batch) ReplaceMode.ImportDateRange repo
      = (Except.ok (),
         ⟨repo.activities.filter (fun r => decide ¬(mn ≤ r.date ∧ r.date ≤ mx))
            ++ batch.map ActivityRecord.from_entity⟩) ∧
    (∀ r ∈ repo.activities, ¬(mn ≤ r.date ∧ r.date ≤ mx) →
      r ∈ (ActivitiesList.importActivities (Except.ok batch)
            ReplaceMode.ImportDateRange repo).2.activities) := by
  have hmain : ActivitiesList.importActivities (Except.ok batch)
      ReplaceMode.ImportDateRange repo
      = (Except.ok (),
         ⟨repo.activities.filter (fun r => decide ¬(mn ≤ r.date ∧ r.date ≤ mx))
            ++ batch.map ActivityRecord.from_entity⟩) := by
    simp only [ActivitiesList.importActivities, hmin, hmax,
      InMemoryActivitiesListRepository.delete_by_date_range]
    rw [Prod.mk.injEq]
    exact ⟨rfl, foldl_add_activities batch _⟩
  refine ⟨hmain, ?_⟩
  intro r hr hout
  rw [hmain]
  refine List.mem_append_left _ (List.mem_filter.mpr ⟨hr, ?_⟩)
  rw [decide_eq_true_eq]
  exact hout

/-- A one-activity batch dated day 5, for the C3 witness. -/
def c3batch : List Activity :=
  [(Activity.with_id ⟨9⟩ 5 32400 ⟨3⟩ "imported").set_end_time (some 36000)]

/-- A pre-existing ledger with one record outside (day 4) and one inside
(day 5) the batch's date span, for the C3 witness. -/
def c3repo : InMemoryActivitiesListRepository :=
  ⟨[{ id := 1, date := 4, start_time := 8, end_time := none,
      accounting_category_id := ⟨3⟩, task := "before" },
    { id := 2, date := 5, start_time := 8, end_time := none,
      accounting_category_id := ⟨3⟩, task := "old in range" }]⟩

/-- Witness for C3: importing the day-5 batch deletes the old day-5
record, keeps the day-4 record and appends the imported one. -/
theorem import_date_range_spec_witness :
    ActivitiesList.importActivities (Except.ok c3batch) ReplaceMode.ImportDateRange
      c3repo
      = (Except.ok (),
         ⟨[{ id := 1, date := 4, start_time := 8, end_time := none,
             accounting_category_id := ⟨3⟩, task := "before" },
           { id := 9, date := 5, start_time := 32400, end_time := some 36000,
             accounting_category_id := ⟨3⟩, task := "imported" }]⟩) := by
  have h := (import_date_range_spec c3repo c3batch 5 5 rfl rfl).1
  rw [h]
  decide

/-! ### Claim C6 -/

/-- Adding a duration into the per-category accumulator raises the sum
of its values by exactly that duration. -/
theorem sum_addToCategory (k : AccountingCategoryId) (d : Int) :
    ∀ m : List (AccountingCategoryId × Int),
      ((addToCategory m k d).map Prod.snd).sum = (m.map Prod.snd).sum + d := by
  intro m
  induction m with
  | nil => simp [addToCategory]
  | cons p rest ih =>
    rcases p with ⟨k', v⟩
    by_cases hk : k' = k
    · simp [addToCategory, hk]
      ring
    · simp [addToCategory, hk, ih]
      ring

/-- Folding the per-category accumulation over a list of activities
raises the sum of the accumulator's values by the total duration. -/
theorem sum_foldl_addToCategory (acts : List Activity) :
    ∀ m : List (AccountingCategoryId × Int),
      (((acts.foldl (fun m a => addToCategory m a.accounting_category_id a.duration)
          m).map Prod.snd).sum)
        = (m.map Prod.snd).sum + (acts.map Activity.duration).sum := by
  induction acts with
  | nil => intro m; simp
  | cons a t ih =>
    intro m
    simp only [List.foldl_cons, ih, sum_addToCategory, List.map_cons, List.sum_cons]
    ring

/-- C6: the per-category durations of a weekly report sum, over all
categories, to the report's `total_duration`, for every ledger content
and week start. -/
theorem weekly_duration_per_category_sum (repo : InMemoryActivitiesListRepository)
    (week_start : Int) :
    (((WeeklyReport.new week_start repo).duration_per_category).map Prod.snd).sum
      = (WeeklyReport.new week_start repo).total_duration := by
  simp [WeeklyReport.new, sum_foldl_addToCategory]

/-! ### Claim C2 -/

/-- A ledger with one activity on day `week_start + 7`: inside the
weekly report's inclusive 8-day fetch window, outside the 7 days the
claim sums over. -/
def c2repo : InMemoryActivitiesListRepository :=
  ⟨[{ id := 1, date := 7, start_time := 32400, end_time := some 36000,
      accounting_category_id := ⟨3⟩, task := "boundary" }]⟩

/-- Counterexample to C2 as stated: for `week_start = 0` and a ledger
whose only activity is dated day 7 (= `week_start + 7`), the weekly
total is one hour but the seven daily totals for days 0..6 sum to
zero, because `WeeklyReport::new` fetches the inclusive range
`[week_start, week_start + 7]` — an 8-day window. -/
theorem weekly_total_counterexample :
    ¬((WeeklyReport.new 0 c2repo).total_duration
        = ((List.range 7).map (fun (k : Nat) =>
            (DailyReport.new ((0 : Int) + (k : Int)) c2repo).total_duration)).sum) := by
  decide

/-- C6 and C2 share the fact that `DailyReport::calculate_activity_duration`
is the same computation as `Activity::duration`. -/
theorem calculate_eq_duration :
    DailyReport.calculate_activity_duration = Activity.duration := rfl

/-- Sum of a pointwise addition of two list maps splits. -/
theorem list_sum_map_add {β : Type} (g h : β → Int) :
    ∀ l : List β, (l.map (fun k => g k + h k)).sum = (l.map g).sum + (l.map h).sum := by
  intro l
  induction l with
  | nil => simp
  | cons a t ih =>
    simp only [List.map_cons, List.sum_cons, ih]
    ring

/-- Summing the one-hot indicator `if d = ws + k then x else 0` over
`k < n` yields `x` exactly when `d` lies in `[ws, ws + n - 1]`. -/
theorem sum_indicator_range (d x : Int) :
    ∀ (n : Nat) (ws : Int),
      ((List.range n).map (fun (k : Nat) => if d = ws + (k : Int) then x else 0)).sum
        = if ws ≤ d ∧ d ≤ ws + (n : Int) - 1 then x else 0 := by
  intro n
  induction n with
  | zero =>
    intro ws
    have hcond : ¬(ws ≤ d ∧ d ≤ ws + ((0 : Nat) : Int) - 1) := by push_cast; omega
    simp only [List.range_zero, List.map_nil, List.sum_nil, if_neg hcond]
  | succ n ih =>
    intro ws
    rw [List.range_succ, List.map_append, List.sum_append, ih]
    simp only [List.map_cons, List.map_nil, List.sum_cons, List.sum_nil, add_zero]
    by_cases hd : d = ws + (n : Int)
    · rw [if_neg (by omega), if_pos hd, if_pos (by push_cast at hd ⊢; omega), zero_add]
    · rw [if_neg hd, add_zero]
      have hiff : (ws ≤ d ∧ d ≤ ws + (n : Int) - 1)
          ↔ (ws ≤ d ∧ d ≤ ws + ((n + 1 : Nat) : Int) - 1) := by
        push_cast at hd ⊢
        omega
      rw [if_congr hiff rfl rfl]

/-- Core identity behind the weekly/daily relation: summing durations
over the inclusive 8-day filter equals summing, for each of the 8
offsets, over the per-date filter. -/
theorem weekly_daily_core (ws : Int) (l : List ActivityRecord) :
    (((l.filter (fun r => decide (ws ≤ r.date) && decide (r.date ≤ ws + 7))).map
        ActivityRecord.to_entity).map Activity.duration).sum
      = ((List.range 8).map (fun (k : Nat) =>
          (((l.filter (fun r => decide (r.date = ws + (k : Int)))).map
              ActivityRecord.to_entity).map
            DailyReport.calculate_activity_duration).sum)).sum := by
  rw [calculate_eq_duration]
  simp only [List.map_map]
  induction l with
  | nil => simp
  | cons r t ih =>
    have hpoint : ∀ k : Nat,
        (((r :: t).filter (fun r => decide (r.date = ws + (k : Int)))).map
            (Activity.duration ∘ ActivityRecord.to_entity)).sum
          = (if r.date = ws + (k : Int)
             then (Activity.duration ∘ ActivityRecord.to_entity) r else 0)
            + ((t.filter (fun r => decide (r.date = ws + (k : Int)))).map
                (Activity.duration ∘ ActivityRecord.to_entity)).sum := by
      intro k
      by_cases h : r.date = ws + (k : Int) <;> simp [List.filter_cons, h]
    have hsplit : ((List.range 8).map (fun (k : Nat) =>
        (((r :: t).filter (fun r => decide (r.date = ws + (k : Int)))).map
          (Activity.duration ∘ ActivityRecord.to_entity)).sum)).sum
        = ((List.range 8).map (fun (k : Nat) =>
            if r.date = ws + (k : Int)
            then (Activity.duration ∘ ActivityRecord.to_entity) r else 0)).sum
          + ((List.range 8).map (fun (k : Nat) =>
              ((t.filter (fun r => decide (r.date = ws + (k : Int)))).map
                (Activity.duration ∘ ActivityRecord.to_entity)).sum)).sum := by
      rw [← list_sum_map_add]
      congr 1
      apply List.map_congr_left
      intro k _
      exact hpoint k
    rw [hsplit, ← ih, sum_indicator_range r.date _ 8 ws]
    have h8 : ws + ((8 : Nat) : Int) - 1 = ws + 7 := by push_cast; ring
    rw [h8]
    by_cases hin : ws ≤ r.date ∧ r.date ≤ ws + 7
    · rw [if_pos hin]
      simp [List.filter_cons, hin.1, hin.2]
    · rw [if_neg hin, zero_add]
      have hcond : (decide (ws ≤ r.date) && decide (r.date ≤ ws + 7)) = false := by
        rcases Decidable.not_and_iff_or_not.mp hin with h | h <;> simp [h]
      simp [List.filter_cons, hcond]

/-- C2 (amended): the weekly report's `total_duration` equals the sum of
the daily `total_duration`s over the **8** consecutive dates
`week_start .. week_start + 7`, because the weekly fetch uses the
inclusive range `[week_start, week_start + 7]`; the original 7-day
statement fails on activities dated `week_start + 7`. -/
theorem weekly_total_eq_sum_daily (repo : InMemoryActivitiesListRepository)
    (week_start : Int) :
    (WeeklyReport.new week_start repo).total_duration
      = ((List.range 8).map (fun (k : Nat) =>
          (DailyReport.new (week_start + (k : Int)) repo).total_duration)).sum :=
  weekly_daily_core week_start repo.activities

/-! ### Claims C4 and C10: the CSV pipeline -/

/-- A successful deserialization pass means every input row was a
well-formed record, in order. -/
theorem deserializeRows_ok :
    ∀ (rows : List (Option ActivityTableRecord)) (recs : List ActivityTableRecord),
      CsvActivitiesImporter.deserializeRows rows = Except.ok recs →
      rows = recs.map some := by
  intro rows
  induction rows with
  | nil =>
    intro recs h
    simp only [CsvActivitiesImporter.deserializeRows] at h
    injection h with h'
    subst h'
    rfl
  | cons r rest ih =>
    intro recs h
    cases r with
    | none => simp [CsvActivitiesImporter.deserializeRows] at h
    | some record =>
      simp only [CsvActivitiesImporter.deserializeRows] at h
      cases hrest : CsvActivitiesImporter.deserializeRows rest with
      | ok rs =>
        rw [hrest] at h
        injection h with h'
        subst h'
        simp [ih rs hrest]
      | error e =>
        rw [hrest] at h
        cases h

/-- Row deserialization can fail only with `ParseError`. -/
theorem deserializeRows_error :
    ∀ (rows : List (Option ActivityTableRecord)) (e : ActivitiesImporterError),
      CsvActivitiesImporter.deserializeRows rows = Except.error e →
      e = ActivitiesImporterError.ParseError := by
  intro rows
  induction rows with
  | nil =>
    intro e h
    simp [CsvActivitiesImporter.deserializeRows] at h
  | cons r rest ih =>
    intro e h
    cases r with
    | none =>
      simp only [CsvActivitiesImporter.deserializeRows] at h
      injection h with h'
      exact h'.symm
    | some record =>
      simp only [CsvActivitiesImporter.deserializeRows] at h
      cases hrest : CsvActivitiesImporter.deserializeRows rest with
      | ok rs => rw [hrest] at h; cases h
      | error e' =>
        rw [hrest] at h
        injection h with h'
        exact h' ▸ ih e' hrest

/-- Date conversion can fail only with `ParseError`. -/
theorem convert_date_format_error (d y : String) (e : ActivitiesImporterError)
    (h : convert_date_format d y = Except.error e) :
    e = ActivitiesImporterError.ParseError := by
  unfold convert_date_format at h
  cases hp : parseDMY (d ++ y).data with
  | some v => rw [hp] at h; cases h
  | none => rw [hp] at h; injection h with h'; exact h'.symm

/-- Row processing can fail only with `ParseError`. -/
theorem importRows_error (year : Nat) (actIds catIds : Nat → Nat) :
    ∀ (recs : List ActivityTableRecord) catRepo rowIdx created acc e,
      (CsvActivitiesImporter.importRows year actIds catIds recs catRepo rowIdx
          created acc).1 = Except.error e →
      e = ActivitiesImporterError.ParseError := by
  intro recs
  induction recs with
  | nil =>
    intro catRepo rowIdx created acc e h
    simp [CsvActivitiesImporter.importRows] at h
  | cons record rest ih =>
    intro catRepo rowIdx created acc e h
    simp only [CsvActivitiesImporter.importRows] at h
    split at h
    next e' heq =>
      dsimp only at h
      injection h with h2
      rw [← h2]
      exact convert_date_format_error record.date (toString year) e' heq
    next y m d heq =>
      split at h
      next heq2 =>
        dsimp only at h
        injection h with h2
        exact h2.symm
      next ci heq2 =>
        split at h
        next heq3 =>
          dsimp only at h
          injection h with h2
          exact h2.symm
        next co heq3 =>
          exact ih _ (rowIdx + 1) _ _ e h

/-- A successful row-processing pass parsed every record's date cell. -/
theorem importRows_ok_dates (year : Nat) (actIds catIds : Nat → Nat) :
    ∀ (recs : List ActivityTableRecord) catRepo rowIdx created acc acts,
      (CsvActivitiesImporter.importRows year actIds catIds recs catRepo rowIdx
          created acc).1 = Except.ok acts →
      ∀ rec ∈ recs, ∃ ymd,
        convert_date_format rec.date (toString year) = Except.ok ymd := by
  intro recs
  induction recs with
  | nil => intro _ _ _ _ _ _ rec hrec; cases hrec
  | cons record rest ih =>
    intro catRepo rowIdx created acc acts h rec hrec
    simp only [CsvActivitiesImporter.importRows] at h
    split at h
    next e' heq => dsimp only at h; exact absurd h (by simp)
    next y m d heq =>
      split at h
      next heq2 => dsimp only at h; exact absurd h (by simp)
      next ci heq2 =>
        split at h
        next heq3 => dsimp only at h; exact absurd h (by simp)
        next co heq3 =>
          rcases List.mem_cons.mp hrec with hrec' | hmem
          · exact hrec' ▸ ⟨(y, m, d), heq⟩
          · exact ih _ (rowIdx + 1) _ _ acts h rec hmem

/-- Every activity a successful row-processing pass emits beyond the
accumulator carries a parsed check-in as its start time and a parsed
check-out as its (present) end time, from some input record. -/
theorem importRows_ok_shape (year : Nat) (actIds catIds : Nat → Nat) :
    ∀ (recs : List ActivityTableRecord) catRepo rowIdx created acc acts,
      (CsvActivitiesImporter.importRows year actIds catIds recs catRepo rowIdx
          created acc).1 = Except.ok acts →
      ∀ a ∈ acts, a ∈ acc ∨ ∃ rec ∈ recs, ∃ e,
        a.end_time = some e ∧ parseTime rec.check_in = some a.start_time ∧
          parseTime rec.check_out = some e := by
  intro recs
  induction recs with
  | nil =>
    intro catRepo rowIdx created acc acts h a ha
    simp only [CsvActivitiesImporter.importRows] at h
    injection h with h'
    exact Or.inl (h' ▸ ha)
  | cons record rest ih =>
    intro catRepo rowIdx created acc acts h a ha
    simp only [CsvActivitiesImporter.importRows] at h
    split at h
    next e' heq => dsimp only at h; exact absurd h (by simp)
    next y m d heq =>
      split at h
      next heq2 => dsimp only at h; exact absurd h (by simp)
      next ci heq2 =>
        split at h
        next heq3 => dsimp only at h; exact absurd h (by simp)
        next co heq3 =>
          rcases ih _ (rowIdx + 1) _ _ acts h a ha with hacc | ⟨rec, hrec, e, he, hci, hco⟩
          · rcases List.mem_append.mp hacc with hold | hnew
            · exact Or.inl hold
            · have ha' := List.mem_singleton.mp hnew
              refine Or.inr ⟨record, List.mem_cons_self record rest, co, ?_, ?_, ?_⟩
              · rw [ha']; rfl
              · rw [ha']; exact heq2
              · exact heq3
          · exact Or.inr ⟨rec, List.mem_cons_of_mem record hrec, e, he, hci, hco⟩

/-- C4: an import input containing a malformed row, or a date cell that
does not compose with the year into a valid calendar date, makes the
importer fail with `ParseError`, and `ActivitiesList::import` then
returns that error before touching the ledger, under every
`ReplaceMode`. -/
theorem csv_import_parse_error (rows : List (Option ActivityTableRecord))
    (year : Nat) (actIds catIds : Nat → Nat)
    (catRepo : InMemoryAccountingCategoriesListRepository)
    (hbad : none ∈ rows ∨ ∃ rec, some rec ∈ rows ∧
      convert_date_format rec.date (toString year)
        = Except.error ActivitiesImporterError.ParseError) :
    (CsvActivitiesImporter.runImport rows year actIds catIds catRepo).1
      = Except.error ActivitiesImporterError.ParseError ∧
    ∀ (mode : ReplaceMode) (repo : InMemoryActivitiesListRepository),
      ActivitiesList.importActivities
          (CsvActivitiesImporter.runImport rows year actIds catIds catRepo).1 mode repo
        = (Except.error ActivitiesImporterError.ParseError, repo) := by
  have herr : (CsvActivitiesImporter.runImport rows year actIds catIds catRepo).1
      = Except.error ActivitiesImporterError.ParseError := by
    cases hres : (CsvActivitiesImporter.runImport rows year actIds catIds catRepo).1 with
    | ok acts =>
      exfalso
      unfold CsvActivitiesImporter.runImport at hres
      cases hds : CsvActivitiesImporter.deserializeRows rows with
      | error e => rw [hds] at hres; cases hres
      | ok recs =>
        rw [hds] at hres
        have hrows := deserializeRows_ok rows recs hds
        rcases hbad with hnone | ⟨rec, hrec, hconv⟩
        · rw [hrows] at hnone
          simp [List.mem_map] at hnone
        · have hmem : rec ∈ recs := by
            rw [hrows] at hrec
            rcases List.mem_map.mp hrec with ⟨x, hx, hxe⟩
            injection hxe with hxe'
            exact hxe' ▸ hx
          rcases importRows_ok_dates year actIds catIds recs catRepo 0 0 [] acts hres
            rec hmem with ⟨ymd, hok⟩
          rw [hconv] at hok
          cases hok
    | error e =>
      have he : e = ActivitiesImporterError.ParseError := by
        unfold CsvActivitiesImporter.runImport at hres
        cases hds : CsvActivitiesImporter.deserializeRows rows with
        | error e' =>
          rw [hds] at hres
          dsimp only at hres
          injection hres with h2
          rw [← h2]
          exact deserializeRows_error rows e' hds
        | ok recs =>
          rw [hds] at hres
          exact importRows_error year actIds catIds recs catRepo 0 0 [] e hres
      rw [he]
  refine ⟨herr, ?_⟩
  intro mode repo
  rw [herr]
  rfl

/-- An import input whose only row carries the impossible date cell
`31.02.`, for the C4 witness. -/
def badDateRows : List (Option ActivityTableRecord) :=
  [some { cw := 11, date := "31.02.", check_in := "09:00", check_out := "17:00",
          pam_category := "Development", task := "Coding", comment := "" }]

/-- Witness for C4: the `31.02.` cell with year 2023 yields `ParseError`
and the ledger is untouched under `ReplaceMode::All`. -/
theorem csv_import_parse_error_witness :
    (CsvActivitiesImporter.runImport badDateRows 2023 (fun _ => 0) (fun _ => 0)
        InMemoryAccountingCategoriesListRepository.new).1
      = Except.error ActivitiesImporterError.ParseError ∧
    ActivitiesList.importActivities
        (CsvActivitiesImporter.runImport badDateRows 2023 (fun _ => 0) (fun _ => 0)
          InMemoryAccountingCategoriesListRepository.new).1 ReplaceMode.All
        ⟨[{ id := 1, date := 4, start_time := 8, end_time := none,
            accounting_category_id := ⟨3⟩, task := "kept" }]⟩
      = (Except.error ActivitiesImporterError.ParseError,
         ⟨[{ id := 1, date := 4, start_time := 8, end_time := none,
             accounting_category_id := ⟨3⟩, task := "kept" }]⟩) := by
  have h := csv_import_parse_error badDateRows 2023 (fun _ => 0) (fun _ => 0)
    InMemoryAccountingCategoriesListRepository.new
    (Or.inr ⟨{ cw := 11, date := "31.02.", check_in := "09:00", check_out := "17:00",
               pam_category := "Development", task := "Coding", comment := "" },
      by decide, by decide⟩)
  exact ⟨h.1, h.2 ReplaceMode.All _⟩

/-- C10: every activity produced by a successful CSV import has its end
time present — the parsed `Check Out` cell — so its duration is the
check-out time minus the check-in time. -/
theorem csv_import_end_time (rows : List (Option ActivityTableRecord)) (year : Nat)
    (actIds catIds : Nat → Nat)
    (catRepo : InMemoryAccountingCategoriesListRepository) (acts : List Activity)
    (h : (CsvActivitiesImporter.runImport rows year actIds catIds catRepo).1
      = Except.ok acts) :
    ∀ a ∈ acts, ∃ e, a.end_time = some e ∧
      a.duration = (e : Int) - (a.start_time : Int) ∧
      ∃ rec, some rec ∈ rows ∧ parseTime rec.check_in = some a.start_time ∧
        parseTime rec.check_out = some e := by
  unfold CsvActivitiesImporter.runImport at h
  cases hds : CsvActivitiesImporter.deserializeRows rows with
  | error e => rw [hds] at h; cases h
  | ok recs =>
    rw [hds] at h
    intro a ha
    rcases importRows_ok_shape year actIds catIds recs catRepo 0 0 [] acts h a ha with
      hacc | ⟨rec, hrec, e, he, hci, hco⟩
    · cases hacc
    · refine ⟨e, he, ?_, rec, ?_, hci, hco⟩
      · simp [Activity.duration, he]
      · rw [deserializeRows_ok rows recs hds]
        exact List.mem_map_of_mem some hrec

/-- A well-formed one-row import input, for the C10 witness. -/
def goodRows : List (Option ActivityTableRecord) :=
  [some { cw := 11, date := "15.03.", check_in := "09:00", check_out := "17:00",
          pam_category := "Development", task := "Coding", comment := "x" }]

/-- The activity the one-row import produces: 2023-03-15 (epoch day
19431), 09:00 to 17:00, the first fresh category id, task text
`Coding`. -/
def goodActivity : Activity :=
  (Activity.new 0 19431 32400 ⟨0⟩ "Coding").set_end_time (some 61200)

/-- Witness for C10: the concrete one-row import succeeds and its
activity has the parsed check-out as end time. -/
theorem csv_import_end_time_witness :
    ∃ e, goodActivity.end_time = some e ∧
      goodActivity.duration = (e : Int) - (goodActivity.start_time : Int) ∧
      ∃ rec, some rec ∈ goodRows ∧ parseTime rec.check_in = some goodActivity.start_time ∧
        parseTime rec.check_out = some e :=
  csv_import_end_time goodRows 2023 (fun _ => 0) (fun _ => 0)
    InMemoryAccountingCategoriesListRepository.new [goodActivity] (by decide)
    goodActivity (by decide)

/-! ### Claim C7 -/

/-- Counterexample to C7 as stated: the simple (hyphen-free) form is a
valid UUID textual representation that `Uuid::parse_str` accepts, yet
`Display` renders the hyphenated form, so the round trip does not
return the original string. -/
theorem uuid_roundtrip_counterexample :
    ActivityId.parse_str "00000000000000000000000000000000" = Except.ok ⟨0⟩ ∧
    ActivityId.render ⟨0⟩ ≠ "00000000000000000000000000000000" := by decide

/-- Hex digits round-trip through their lowercase rendering. -/
theorem hexVal_hexChar (n : Nat) (h : n < 16) : hexVal (hexChar n) = some n := by
  interval_cases n <;> rfl

/-- Reading back exactly the digits a nibble group renders succeeds and
folds the nibbles onto the accumulator, leaving the rest untouched. -/
theorem readHex_map_append (n : Nat) (ds : List Nat) (hn : ds.length = n)
    (hb : ∀ d ∈ ds, d < 16) :
    ∀ (cs : List Char) (acc : Nat),
      readHex n (ds.map hexChar ++ cs) acc
        = some (ds.foldl (fun a d => a * 16 + d) acc, cs) := by
  subst hn
  induction ds with
  | nil => intro cs acc; rfl
  | cons d ds ih =>
    intro cs acc
    have hd : d < 16 := hb d (List.mem_cons_self d ds)
    simp only [List.map_cons, List.cons_append, List.length_cons, readHex,
      hexVal_hexChar d hd, List.foldl_cons]
    exact ih (fun x hx => hb x (List.mem_cons_of_mem d hx)) cs (acc * 16 + d)

/-- The nibble expansion has the requested width. -/
theorem toNibbles_length : ∀ (k u : Nat), (toNibbles k u).length = k := by
  intro k
  induction k with
  | zero => intro u; rfl
  | succ k ih => intro u; simp [toNibbles, ih]

/-- Every expanded nibble is below 16. -/
theorem toNibbles_lt : ∀ (k u : Nat), ∀ d ∈ toNibbles k u, d < 16 := by
  intro k
  induction k with
  | zero => intro u d hd; cases hd
  | succ k ih =>
    intro u d hd
    simp only [toNibbles] at hd
    rcases List.mem_append.mp hd with h | h
    · exact ih (u / 16) d h
    · rw [List.mem_singleton] at h
      exact h ▸ Nat.mod_lt u (by norm_num)

/-- Folding the nibble expansion back recovers the value modulo the
width. -/
theorem foldl_toNibbles : ∀ (k u acc : Nat),
    (toNibbles k u).foldl (fun a d => a * 16 + d) acc
      = acc * 16 ^ k + u % 16 ^ k := by
  intro k
  induction k with
  | zero => intro u acc; simp [toNibbles, Nat.mod_one]
  | succ k ih =>
    intro u acc
    simp only [toNibbles, List.foldl_append, ih, List.foldl_cons, List.foldl_nil]
    have hm : u % 16 ^ (k + 1) = u % 16 + 16 * (u / 16 % 16 ^ k) := by
      rw [Nat.pow_succ']
      exact Nat.mod_mul
    rw [hm, Nat.pow_succ]
    ring

/-- The five take/drop chunks of a nibble list reassemble it. -/
theorem chunks_append (ds : List Nat) :
    ds.take 8 ++ ((ds.drop 8).take 4 ++ ((ds.drop 12).take 4
      ++ ((ds.drop 16).take 4 ++ ds.drop 20))) = ds := by
  have h12 : (ds.drop 8).drop 4 = ds.drop 12 := by rw [List.drop_drop]
  have h16 : (ds.drop 12).drop 4 = ds.drop 16 := by rw [List.drop_drop]
  have h20 : (ds.drop 16).drop 4 = ds.drop 20 := by rw [List.drop_drop]
  conv_rhs => rw [← List.take_append_drop 8 ds]
  congr 1
  conv_rhs => rw [← List.take_append_drop 4 (ds.drop 8)]
  congr 1
  rw [h12]
  conv_rhs => rw [← List.take_append_drop 4 (ds.drop 12)]
  congr 1
  rw [h16]
  conv_rhs => rw [← List.take_append_drop 4 (ds.drop 16)]
  congr 1
  exact h20.symm

/-- Parsing the hyphenated rendering of a 32-nibble list recovers the
folded value. -/
theorem parseHyphenated_render (ds : List Nat) (hlen : ds.length = 32)
    (hb : ∀ d ∈ ds, d < 16) :
    parseHyphenated (renderHyphenated (ds.take 8) ((ds.drop 8).take 4)
        ((ds.drop 12).take 4) ((ds.drop 16).take 4) (ds.drop 20))
      = some (ds.foldl (fun a d => a * 16 + d) 0) := by
  have hb1 : ∀ d ∈ ds.take 8, d < 16 := fun d hd => hb d (List.mem_of_mem_take hd)
  have hb2 : ∀ d ∈ (ds.drop 8).take 4, d < 16 :=
    fun d hd => hb d (List.mem_of_mem_drop (List.mem_of_mem_take hd))
  have hb3 : ∀ d ∈ (ds.drop 12).take 4, d < 16 :=
    fun d hd => hb d (List.mem_of_mem_drop (List.mem_of_mem_take hd))
  have hb4 : ∀ d ∈ (ds.drop 16).take 4, d < 16 :=
    fun d hd => hb d (List.mem_of_mem_drop (List.mem_of_mem_take hd))
  have hb5 : ∀ d ∈ ds.drop 20, d < 16 := fun d hd => hb d (List.mem_of_mem_drop hd)
  have hl1 : (ds.take 8).length = 8 := by simp [List.length_take, hlen]
  have hl2 : ((ds.drop 8).take 4).length = 4 := by
    simp [List.length_take, List.length_drop, hlen]
  have hl3 : ((ds.drop 12).take 4).length = 4 := by
    simp [List.length_take, List.length_drop, hlen]
  have hl4 : ((ds.drop 16).take 4).length = 4 := by
    simp [List.length_take, List.length_drop, hlen]
  have hl5 : (ds.drop 20).length = 12 := by simp [List.length_drop, hlen]
  unfold renderHyphenated parseHyphenated
  rw [readHex_map_append 8 (ds.take 8) hl1 hb1]
  simp only [expectHyphen, if_pos]
  rw [readHex_map_append 4 ((ds.drop 8).take 4) hl2 hb2]
  simp only [expectHyphen, if_pos]
  rw [readHex_map_append 4 ((ds.drop 12).take 4) hl3 hb3]
  simp only [expectHyphen, if_pos]
  rw [readHex_map_append 4 ((ds.drop 16).take 4) hl4 hb4]
  simp only [expectHyphen, if_pos]
  rw [← List.append_nil ((ds.drop 20).map hexChar),
    readHex_map_append 12 (ds.drop 20) hl5 hb5]
  conv_rhs => rw [← chunks_append ds]
  simp [List.foldl_append]

/-- The hyphenated rendering of well-sized groups is 36 characters. -/
theorem renderHyphenated_length (g1 g2 g3 g4 g5 : List Nat)
    (h1 : g1.length = 8) (h2 : g2.length = 4) (h3 : g3.length = 4)
    (h4 : g4.length = 4) (h5 : g5.length = 12) :
    (renderHyphenated g1 g2 g3 g4 g5).length = 36 := by
  simp [renderHyphenated, h1, h2, h3, h4, h5]

/-- Dispatching `uuidParse` on a rendered 32-nibble list always selects
the hyphenated parser and recovers the folded value. -/
theorem uuidParse_render (ds : List Nat) (hlen : ds.length = 32)
    (hb : ∀ d ∈ ds, d < 16) :
    uuidParse (String.mk (renderHyphenated (ds.take 8) ((ds.drop 8).take 4)
        ((ds.drop 12).take 4) ((ds.drop 16).take 4) (ds.drop 20)))
      = some (ds.foldl (fun a d => a * 16 + d) 0) := by
  have hl1 : (ds.take 8).length = 8 := by simp [List.length_take, hlen]
  have hl2 : ((ds.drop 8).take 4).length = 4 := by
    simp [List.length_take, List.length_drop, hlen]
  have hl3 : ((ds.drop 12).take 4).length = 4 := by
    simp [List.length_take, List.length_drop, hlen]
  have hl4 : ((ds.drop 16).take 4).length = 4 := by
    simp [List.length_take, List.length_drop, hlen]
  have hl5 : (ds.drop 20).length = 12 := by simp [List.length_drop, hlen]
  have hrl := renderHyphenated_length _ _ _ _ _ hl1 hl2 hl3 hl4 hl5
  unfold uuidParse
  dsimp only
  rw [hrl, if_neg (by norm_num), if_pos rfl]
  exact parseHyphenated_render ds hlen hb

/-- C7 (amended): parsing succeeds and round-trips on the canonical
lowercase hyphenated strings — exactly those the formatter produces:
for every 128-bit value, parsing its rendering returns the same
identifier (hence rendering again returns the same string). The
original universally quantified claim fails because `Uuid::parse_str`
also accepts non-canonical representations (simple, uppercase, braced,
URN) that do not render back to themselves. -/
theorem uuid_parse_render (u : Nat) (h : u < 2 ^ 128) :
    ActivityId.parse_str (ActivityId.render ⟨u⟩) = Except.ok ⟨u⟩ := by
  have hparse := uuidParse_render (toNibbles 32 u) (toNibbles_length 32 u)
    (toNibbles_lt 32 u)
  have hfold : (toNibbles 32 u).foldl (fun a d => a * 16 + d) 0 = u := by
    rw [foldl_toNibbles]
    have h16 : (16 : Nat) ^ 32 = 2 ^ 128 := by norm_num
    rw [h16, Nat.mod_eq_of_lt h]
    ring
  rw [hfold] at hparse
  unfold ActivityId.parse_str ActivityId.render uuidToString
  dsimp only
  rw [hparse]

/-- Witness for C7 (amended): the zero identifier round-trips through
its canonical rendering. -/
theorem uuid_parse_render_witness :
    (0 : Nat) < 2 ^ 128 ∧
    ActivityId.parse_str (ActivityId.render ⟨0⟩) = Except.ok ⟨0⟩ :=
  ⟨by norm_num, uuid_parse_render 0 (by norm_num)⟩

end WorkPulse
